import Mathlib

/-!
Verification of the generic entity-repository core of the `ra-infrastructure`
inventory CLI (`src/cli/src/inventory`): slug generation, MAC-address
normalization, pydantic-style payload dumping, the CRUD repository operations
`create` / `update` / `delete` / `get_by_slug`, VLAN validation, and the
connection provider.

Python strings are embedded as lists of Unicode codepoints (`List Nat`);
Python `dict`s of column values as association lists.
-/

namespace Inventory

/-- A Python string, as its list of Unicode codepoints. -/
abbrev PyStr := List Nat

/-- Codepoints of a Lean string literal (convenience for stating examples). -/
def strCodes (s : String) : PyStr := s.toList.map Char.toNat

/-! ## Slug generation

Source: `src/cli/src/inventory/db/repository.py`, `BaseRepository.generate_slug`:
`re.sub(r"[^a-z0-9]+", "-", name.lower()).strip("-")`.
-/

/-- The character class `[a-z0-9]` of the slug regex. -/
def isSlugChar (n : Nat) : Bool := (97 ≤ n && n ≤ 122) || (48 ≤ n && n ≤ 57)

/-- Python `str.lower()`, modelled on the ASCII range (the repository feeds it
names; every non-ASCII codepoint is outside `[a-z0-9]` both before and after
lowering, so only the ASCII mapping is observable downstream). -/
def pyLower (n : Nat) : Nat := if 65 ≤ n && n ≤ 90 then n + 32 else n

/-- State machine for `re.sub(r"[^a-z0-9]+", "-", s)`: each maximal run of
characters outside `[a-z0-9]` is replaced by a single hyphen (codepoint 45);
`inRun` records whether the scanner is inside a run whose hyphen has already
been emitted. -/
def subDashSt (inRun : Bool) : PyStr → PyStr
  | [] => []
  | c :: cs =>
    if isSlugChar c then c :: subDashSt false cs
    else if inRun then subDashSt true cs
    else 45 :: subDashSt true cs

/-- Embedding of `re.sub(r"[^a-z0-9]+", "-", s)`. -/
def subDash (l : PyStr) : PyStr := subDashSt false l

/-- Python `str.strip("-")`: remove leading and trailing hyphens. -/
def stripDash (l : PyStr) : PyStr :=
  ((l.dropWhile (· == 45)).reverse.dropWhile (· == 45)).reverse

/-- Embedding of `BaseRepository.generate_slug`, assembled exactly as in the source. -/
def generate_slug (name : PyStr) : PyStr :=
  stripDash (subDash (name.map pyLower))

/-! ### Spec-side formulation of slug generation

The spec describes the slug as the name lowercased with every maximal run of
characters outside `[a-z0-9]` replaced by a single hyphen and leading/trailing
hyphens stripped; equivalently, the maximal `[a-z0-9]` runs of the lowercased
name joined by single hyphens. -/

/-- The maximal `[a-z0-9]` runs of a string, in order. -/
def alnumRuns : PyStr → List PyStr
  | [] => []
  | c :: cs =>
    if isSlugChar c then
      (c :: cs.takeWhile isSlugChar) :: alnumRuns (cs.dropWhile isSlugChar)
    else alnumRuns (cs.dropWhile (fun d => !isSlugChar d))
termination_by l => l.length
decreasing_by
  all_goals
    simp only [List.length_cons]
    refine Nat.lt_succ_of_le ?_
    induction cs with
    | nil => simp
    | cons a t ih =>
      rw [List.dropWhile_cons]
      split
      · exact Nat.le_succ_of_le ih
      · exact Nat.le_refl _

/-- Join a list of segments with a single separator codepoint between them. -/
def joinSep (sep : Nat) : List PyStr → PyStr
  | [] => []
  | [r] => r
  | r :: rs => r ++ sep :: joinSep sep rs

/-- The description of the slug given by the spec: maximal alphanumeric runs of the
lowercased name, joined by single hyphens. -/
def slug_spec (name : PyStr) : PyStr :=
  joinSep 45 (alnumRuns (name.map pyLower))

/-- Optional padding run used to characterize `subDash` output. -/
def padIf (b : Bool) : List PyStr := if b then [[]] else []

/-- Whether the string starts with a character outside `[a-z0-9]`. -/
def headBad (l : PyStr) : Bool :=
  match l with
  | [] => false
  | c :: _ => !isSlugChar c

/-- Whether the string ends with a character outside `[a-z0-9]`. -/
def lastBad (l : PyStr) : Bool :=
  match l.getLast? with
  | some c => !isSlugChar c
  | none => false

/-- A well-formed run list: every run nonempty and all-alphanumeric. -/
def runsWF (R : List PyStr) : Prop :=
  ∀ r ∈ R, r ≠ [] ∧ ∀ x ∈ r, isSlugChar x = true

/-- Acceptor of the slug regex `[a-z0-9]+(-[a-z0-9]+)*`. In mode `true` the
automaton still has to read at least one alphanumeric character for the
current group; in mode `false` it has read one and may stop, continue the
group, or start a new hyphen-separated group. -/
def regexAccept : Bool → PyStr → Bool
  | true, [] => false
  | false, [] => true
  | seg, c :: cs =>
    if isSlugChar c then regexAccept false cs
    else if seg then false else (c == 45) && regexAccept true cs

/-- Acceptor of the spec pattern for slugs, including the empty alternative. -/
def slugRegex (l : PyStr) : Bool := l.isEmpty || regexAccept true l

/-! ## MAC address validation

Source: `src/cli/src/inventory/models/device.py`. `DeviceBase.validate_mac`
and `DeviceUpdate.validate_mac` are textually identical:
strip every character outside `[0-9A-Fa-f]`, require exactly 12 remaining hex
digits, and rebuild the address as colon-separated uppercased 2-digit groups.
-/

/-- The character class `[0-9A-Fa-f]` kept by `re.sub(r"[^0-9A-Fa-f]", "", v)`. -/
def isHexCode (n : Nat) : Bool :=
  (48 ≤ n && n ≤ 57) || (65 ≤ n && n ≤ 70) || (97 ≤ n && n ≤ 102)

/-- Python `str.upper()` on the ASCII range (the groups it is applied to are
already hex-filtered, hence ASCII). -/
def pyUpper (n : Nat) : Nat := if 97 ≤ n && n ≤ 122 then n - 32 else n

/-- The 2-character slices `mac[i:i+2]` for `i in range(0, 12, 2)` (the code
only takes them after checking `len(mac) == 12`). -/
def chunk2 : PyStr → List PyStr
  | a :: b :: rest => [a, b] :: chunk2 rest
  | [a] => [[a]]
  | [] => []

/-- Embedding of `DeviceBase.validate_mac` and `DeviceUpdate.validate_mac` on a string input
(the `None` input is passed through by the source before this logic runs);
`none` models the raised `ValueError`. -/
def validate_mac (v : PyStr) : Option PyStr :=
  let mac := v.filter isHexCode
  if mac.length = 12 then
    some (joinSep 58 ((chunk2 mac).map (List.map pyUpper)))
  else none

/-- An uppercase hex digit `[0-9A-F]`. -/
def isUpperHexCode (n : Nat) : Bool := (48 ≤ n && n ≤ 57) || (65 ≤ n && n ≤ 70)

/-- Canonical MAC form: six uppercase-hex 2-digit groups separated by colons
(codepoint 58). -/
def isCanonicalMac : PyStr → Bool
  | [a, b, s1, c, d, s2, e, f, s3, g, h, s4, i, j, s5, k, m] =>
    s1 == 58 && s2 == 58 && s3 == 58 && s4 == 58 && s5 == 58 &&
    isUpperHexCode a && isUpperHexCode b && isUpperHexCode c &&
    isUpperHexCode d && isUpperHexCode e && isUpperHexCode f &&
    isUpperHexCode g && isUpperHexCode h && isUpperHexCode i &&
    isUpperHexCode j && isUpperHexCode k && isUpperHexCode m
  | _ => false

/-! ## Pydantic payloads and `model_dump`

Creation/update payloads are pydantic models: every declared field carries a
value (possibly Python `None`, embedded as `Option.none`) and a flag recording
whether the caller explicitly set it (`model_fields_set`).
-/

/-- A column value: string, integer, or boolean. -/
inductive Value
  | vStr (s : PyStr)
  | vInt (n : Int)
  | vBool (b : Bool)
deriving DecidableEq

/-- One declared field of a pydantic model instance: its name, whether the
caller explicitly set it, and its value (`none` = Python `None`). -/
structure FieldEntry where
  name : String
  isSet : Bool
  value : Option Value
deriving DecidableEq

/-- A pydantic model instance. -/
abbrev Payload := List FieldEntry

/-- A database row / dumped field dict: column name to value. -/
abbrev Row := List (String × Option Value)

/-- Pydantic `model_dump(exclude_none=…, exclude_unset=…)`: the field dict sent to the
store, in declaration order. -/
def model_dump (p : Payload) (excludeNone excludeUnset : Bool) : Row :=
  (p.filter fun f => (!excludeUnset || f.isSet) && (!excludeNone || f.value.isSome)).map
    fun f => (f.name, f.value)

/-- Pydantic model construction: `modelFields` lists the declared fields of the
model with their defaults in declaration order; `given` holds the keyword
arguments of the caller. A field the caller passes is marked set with the given
value; an omitted field keeps its default, unset. -/
def pydanticFill (modelFields : List (String × Option Value)) (given : Row) : Payload :=
  modelFields.map fun d =>
    match given.lookup d.1 with
    | some v => ⟨d.1, true, v⟩
    | none => ⟨d.1, false, d.2⟩

/-! ## Generic repository operations

Source: `src/cli/src/inventory/db/repository.py`. The relational table is a
list of rows; SQL `WHERE slug = %s` compares the `slug` column to the given
string.
-/

/-- The `slug` column of a row, when it holds a string. -/
def rowSlug (r : Row) : Option PyStr :=
  match r.lookup "slug" with
  | some (some (Value.vStr s)) => some s
  | _ => none

/-- SQL `slug = %s`. -/
def hasSlug (r : Row) (slug : PyStr) : Bool := rowSlug r == some slug

/-- A table of the relational store. -/
abbrev Table := List Row

/-- Embedding of `BaseRepository.get_by_slug`: `SELECT * FROM t WHERE slug = %s` +
`fetchone()`; `none` models a `None` result (not found). -/
def get_by_slug (t : Table) (slug : PyStr) : Option Row :=
  t.find? fun r => hasSlug r slug

/-- The field dict assembled by `BaseRepository.create` before the INSERT:
`fields = data.model_dump(exclude_none=True)`, then
`if "slug" not in fields and "name" in fields: fields["slug"] = generate_slug(fields["name"])`.
`none` models the `TypeError` Python would raise if `fields["name"]` were not
a string. -/
def create_fields (p : Payload) : Option Row :=
  let fields := model_dump p true false
  if (fields.lookup "slug").isNone then
    match fields.lookup "name" with
    | some (some (Value.vStr s)) =>
      some (fields ++ [("slug", some (Value.vStr (generate_slug s)))])
    | some _ => none
    | none => some fields
  else some fields

/-- The field dict assembled by `BaseRepository.update`:
`data.model_dump(exclude_none=True, exclude_unset=True)`. -/
def update_fields (p : Payload) : Row := model_dump p true true

/-- SQL `SET k = v` applied to one row (the schema guarantees the column
exists). -/
def setColumn (r : Row) (k : String) (v : Option Value) : Row :=
  r.map fun kv => if kv.1 == k then (kv.1, v) else kv

/-- Apply the SET clause of an UPDATE to one row, left to right. -/
def applyFields (fields : Row) (r : Row) : Row :=
  fields.foldl (fun acc kv => setColumn acc kv.1 kv.2) r

/-- Embedding of `BaseRepository.update`: empty field dict → no statement, return
`get_by_slug`; otherwise `UPDATE … SET … WHERE slug = %s RETURNING *` updates
every matching row and `fetchone()` returns the first updated row or `None`. -/
def update (t : Table) (slug : PyStr) (p : Payload) : Table × Option Row :=
  let fields := update_fields p
  if fields.isEmpty then (t, get_by_slug t slug)
  else
    (t.map fun row => if hasSlug row slug then applyFields fields row else row,
     (get_by_slug t slug).map (applyFields fields))

/-- Embedding of `BaseRepository.delete`: `DELETE FROM t WHERE slug = %s RETURNING id` +
`fetchone() is not None`. -/
def delete (t : Table) (slug : PyStr) : Table × Bool :=
  (t.filter fun r => !hasSlug r slug, (get_by_slug t slug).isSome)

/-! ## Entity payload models

Field lists with defaults, in declaration order, from
`src/cli/src/inventory/models/device.py` and `network.py`. Required fields
(no pydantic default) are listed with `none`; the claims never construct a
payload that omits them. -/

/-- Field list of `DeviceCreate` (= `DeviceBase` fields plus foreign keys). -/
def deviceCreateModel : List (String × Option Value) :=
  [("name", none), ("device_type", none),
   ("status", some (Value.vStr (strCodes "unknown"))),
   ("manufacturer", none), ("model", none), ("serial_number", none),
   ("firmware_version", none), ("hostname", none), ("mac_address", none),
   ("ip_address", none), ("is_active", some (Value.vBool true)),
   ("site_id", none), ("zone_id", none), ("network_id", none),
   ("category_id", none)]

/-- Field list of `DeviceUpdate`: every field optional, defaulting to `None`. -/
def deviceUpdateModel : List (String × Option Value) :=
  [("name", none), ("status", none), ("zone_id", none), ("manufacturer", none),
   ("model", none), ("serial_number", none), ("firmware_version", none),
   ("mac_address", none), ("ip_address", none)]

/-! ## Network payload validation

Source: `src/cli/src/inventory/models/network.py`, `NetworkBase`:
`name: str = Field(..., min_length=1, max_length=255)`,
`network_type: NetworkType` (a `Literal`), and
`vlan_id: Optional[int] = Field(None, ge=1, le=4094)`. Pydantic runs these
checks when the payload object is constructed, before any repository call. -/

/-- The `min_length=1, max_length=255` constraint on `name`. -/
def nameOk (s : PyStr) : Bool := 1 ≤ s.length && s.length ≤ 255

/-- The `NetworkType` `Literal`. -/
def networkTypeOk (s : PyStr) : Bool :=
  s == strCodes "ethernet" || s == strCodes "wifi" || s == strCodes "zwave" ||
  s == strCodes "zigbee" || s == strCodes "bluetooth" || s == strCodes "thread" ||
  s == strCodes "matter" || s == strCodes "other"

/-- The `Field(None, ge=1, le=4094)` constraint on `vlan_id`. -/
def vlanOk (v : Option Int) : Bool :=
  match v with
  | none => true
  | some n => 1 ≤ n && n ≤ 4094

/-- Construction of a `NetworkBase`-derived payload with the validated fields;
`none` models the pydantic `ValidationError` raised at construction. -/
def mkNetworkBase (name ntype : PyStr) (vlan : Option Int) : Option Payload :=
  if nameOk name && networkTypeOk ntype && vlanOk vlan then
    some [⟨"name", true, some (Value.vStr name)⟩,
          ⟨"network_type", true, some (Value.vStr ntype)⟩,
          ⟨"vlan_id", true, vlan.map Value.vInt⟩]
  else none

/-! ## Connection provider

Source: `src/cli/src/inventory/db/connection.py`, `get_connection`: a
`@contextmanager` generator that calls `psycopg.connect(...)`, `yield`s the
connection inside `try:`, and runs `conn.close()` in `finally:`. The exit mode
of the body (normal return, raised exception, or cancellation thrown into the
generator) is embedded as an `Outcome`; the `finally` block runs on all of
them. -/

/-- How the enclosed operation exits. -/
inductive Outcome (A : Type)
  | ok (a : A)
  | exn (e : Nat)
  | cancelled

/-- Store-connection state: the number of open connections. -/
structure DBState where
  openConns : Nat
deriving DecidableEq

/-- Embedding of `psycopg.connect(...)` (successful case). -/
def connectDB (s : DBState) : DBState := ⟨s.openConns + 1⟩

/-- Embedding of `conn.close()`. -/
def closeDB (s : DBState) : DBState := ⟨s.openConns - 1⟩

/-- The `with get_connection() as conn:` scope: if `psycopg.connect` itself
raises (`connectOk = false`) nothing was opened and the error propagates;
otherwise the body runs and `finally: conn.close()` executes on every exit
path, after which the outcome of the body (value, exception, or cancellation)
propagates unchanged. -/
def get_connection_scope {A : Type} (connectOk : Bool)
    (body : DBState → Outcome A × DBState) (s : DBState) : Outcome A × DBState :=
  if connectOk then
    let s1 := connectDB s
    let r := body s1
    (r.1, closeDB r.2)
  else (Outcome.exn 0, s)

/-! ## Concrete data for witnesses and counterexamples -/

/-- Keyword arguments of `DeviceUpdate(mac_address=None)`: the caller
explicitly clears the MAC. -/
def c1given : Row := [("mac_address", none)]

/-- Keyword arguments of a `DeviceCreate` call that sets only the three
required fields. -/
def c2given : Row :=
  [("name", some (Value.vStr (strCodes "Temp Sensor"))),
   ("device_type", some (Value.vStr (strCodes "sensor"))),
   ("site_id", some (Value.vStr (strCodes "5fdc1f0e")))]

/-- Keyword arguments of `DeviceUpdate(name="Lab2")`. -/
def updateNameGiven : Row := [("name", some (Value.vStr (strCodes "Lab2")))]

/-- A sample stored row. -/
def row1 : Row :=
  [("slug", some (Value.vStr (strCodes "lab"))),
   ("name", some (Value.vStr (strCodes "Lab")))]

/-- A one-row sample table. -/
def demoTable : Table := [row1]

/-- The payload of `DeviceUpdate()`: nothing set. -/
def emptyDeviceUpdate : Payload := pydanticFill deviceUpdateModel []


/-! ## Helper lemmas -/

/-- Membership in a `model_dump` result. -/
theorem mem_model_dump_iff (p : Payload) (eN eU : Bool) (k : String) (v : Option Value) :
    (k, v) ∈ model_dump p eN eU ↔
      ∃ f ∈ p, f.name = k ∧ f.value = v ∧ (!eU || f.isSet) = true ∧
        (!eN || f.value.isSome) = true := by
  simp only [model_dump, List.mem_map, List.mem_filter, Bool.and_eq_true, Prod.mk.injEq]
  constructor
  · rintro ⟨f, ⟨hf, h1, h2⟩, h3, h4⟩
    exact ⟨f, hf, h3, h4, h1, h2⟩
  · rintro ⟨f, hf, h1, h2, h3, h4⟩
    exact ⟨f, ⟨hf, h3, h4⟩, h1, h2⟩

/-- A map that fixes every element of a list fixes the list. -/
theorem map_fix {α : Type} (l : List α) (f : α → α) (h : ∀ a ∈ l, f a = a) :
    l.map f = l := by
  induction l with
  | nil => rfl
  | cons a t ih =>
    simp only [List.map_cons, h a (List.mem_cons_self a t),
      ih (fun b hb => h b (List.mem_cons_of_mem a hb))]

/-- Claim C1 (amended): `update(slug, data)` applies exactly the fields
explicitly set in the payload to a non-null value; a field explicitly set to
null is dropped from the applied field dict exactly like an omitted field. -/
theorem C1_thm : ∀ p : Payload,
    (∀ f ∈ p, f.isSet = true → f.value.isSome = true → (f.name, f.value) ∈ update_fields p)
  ∧ (∀ k v, (k, v) ∈ update_fields p →
      ∃ f ∈ p, f.name = k ∧ f.value = v ∧ f.isSet = true ∧ v.isSome = true) := by
  intro p
  constructor
  · intro f hf hset hsome
    exact (mem_model_dump_iff p true true f.name f.value).mpr
      ⟨f, hf, rfl, rfl, by simp [hset], by simp [hsome]⟩
  · intro k v hkv
    obtain ⟨f, hf, h1, h2, h3, h4⟩ := (mem_model_dump_iff p true true k v).mp hkv
    simp only [Bool.not_true, Bool.false_or] at h3 h4
    exact ⟨f, hf, h1, h2, h3, h2 ▸ h4⟩

/-- Claim C2 (amended): `create(data)` sends to the store exactly the fields
whose assembled value is non-null — including non-null defaults the caller
never set — plus a derived slug when the dict has no slug key and carries a
string name; fields whose value is null are dropped, set or not. -/
theorem C2_thm : ∀ (p : Payload) (out : Row), create_fields p = some out →
    (∀ f ∈ p, f.value.isSome = true → (f.name, f.value) ∈ out)
  ∧ (∀ k v, (k, v) ∈ out →
      (∃ f ∈ p, f.name = k ∧ f.value = v ∧ v.isSome = true)
    ∨ (k = "slug" ∧ ∃ s, v = some (Value.vStr (generate_slug s)) ∧
        (model_dump p true false).lookup "name" = some (some (Value.vStr s)))) := by
  intro p out hout
  have hdump : ∀ k v, (k, v) ∈ model_dump p true false →
      ∃ f ∈ p, f.name = k ∧ f.value = v ∧ v.isSome = true := by
    intro k v hkv
    obtain ⟨f, hf, h1, h2, _, h4⟩ := (mem_model_dump_iff p true false k v).mp hkv
    simp only [Bool.not_true, Bool.false_or] at h4
    exact ⟨f, hf, h1, h2, h2 ▸ h4⟩
  have hsub : model_dump p true false <+: out ∨ out = model_dump p true false := by
    simp only [create_fields] at hout
    split at hout
    · split at hout
      · exact Or.inl ⟨_, (Option.some.injEq _ _).mp hout⟩
      · exact absurd hout (by simp)
      · exact Or.inr ((Option.some.injEq _ _).mp hout).symm
    · exact Or.inr ((Option.some.injEq _ _).mp hout).symm
  constructor
  · intro f hf hsome
    have hmem : (f.name, f.value) ∈ model_dump p true false :=
      (mem_model_dump_iff p true false f.name f.value).mpr
        ⟨f, hf, rfl, rfl, rfl, by simp [hsome]⟩
    rcases hsub with ⟨tl, htl⟩ | heq
    · exact htl ▸ List.mem_append_left tl hmem
    · exact heq ▸ hmem
  · intro k v hkv
    simp only [create_fields] at hout
    split at hout
    · split at hout
      · rename_i s hname
        rw [← (Option.some.injEq _ _).mp hout] at hkv
        rcases List.mem_append.mp hkv with hin | hin
        · exact Or.inl (hdump k v hin)
        · simp only [List.mem_singleton, Prod.mk.injEq] at hin
          exact Or.inr ⟨hin.1, s, hin.2, hname⟩
      · exact absurd hout (by simp)
      · rw [← (Option.some.injEq _ _).mp hout] at hkv
        exact Or.inl (hdump k v hkv)
    · rw [← (Option.some.injEq _ _).mp hout] at hkv
      exact Or.inl (hdump k v hkv)

/-- Claim C5: when the dumped creation fields contain a string name and no
slug key, `create` appends a slug derived by the slug algorithm from that name
before inserting; when a slug key is present, the fields are inserted exactly
as given. -/
theorem C5_thm : ∀ p : Payload,
    (∀ s : PyStr, (model_dump p true false).lookup "slug" = none →
       (model_dump p true false).lookup "name" = some (some (Value.vStr s)) →
       create_fields p =
         some (model_dump p true false ++ [("slug", some (Value.vStr (generate_slug s)))]))
  ∧ (∀ v : Option Value, (model_dump p true false).lookup "slug" = some v →
       create_fields p = some (model_dump p true false)) := by
  intro p
  constructor
  · intro s h1 h2
    simp only [create_fields, h1, h2]
    rfl
  · intro v h1
    simp only [create_fields, h1]
    rfl

/-- Claim C6: `update` with an empty field dict issues no statement and
returns the current entity for the slug (not-found included), and `update`
with any payload returns `none` instead of raising when no row has the slug,
leaving the table unchanged. -/
theorem C6_thm : ∀ (t : Table) (slug : PyStr) (p : Payload),
    (update_fields p = [] → update t slug p = (t, get_by_slug t slug))
  ∧ (get_by_slug t slug = none → update t slug p = (t, none)) := by
  intro t slug p
  have hfix : get_by_slug t slug = none →
      (t.map fun row =>
        if hasSlug row slug = true then applyFields (update_fields p) row else row) = t := by
    intro h
    refine map_fix t _ ?_
    intro r hr
    have hns : ¬ hasSlug r slug = true := List.find?_eq_none.mp h r hr
    simp [hns]
  constructor
  · intro h
    simp only [update, h, List.isEmpty_nil, if_true]
  · intro h
    simp only [update]
    split
    · rw [h]
    · rw [h, hfix h]
      simp

/-- Claim C7: `delete(slug)` returns true iff a row with that slug existed
(all such rows being removed), after a delete `get_by_slug` on that slug is
not-found, and a false result leaves the table unchanged (no error raised). -/
theorem C7_thm : ∀ (t : Table) (slug : PyStr),
    ((delete t slug).2 = true ↔ ∃ r ∈ t, hasSlug r slug = true)
  ∧ get_by_slug (delete t slug).1 slug = none
  ∧ ((delete t slug).2 = false → (delete t slug).1 = t) := by
  intro t slug
  refine ⟨?_, ?_, ?_⟩
  · simp only [delete, get_by_slug, Option.isSome_iff_exists]
    constructor
    · rintro ⟨r, hr⟩
      exact ⟨r, List.mem_of_find?_eq_some (p := fun r => hasSlug r slug) hr,
        List.find?_some (p := fun r => hasSlug r slug) hr⟩
    · rintro ⟨r, hr, hs⟩
      have h1 : (t.find? fun r => hasSlug r slug).isSome = true :=
        List.find?_isSome.mpr ⟨r, hr, hs⟩
      exact Option.isSome_iff_exists.mp h1
  · simp only [delete, get_by_slug]
    refine List.find?_eq_none.mpr ?_
    intro r hr
    have := (List.mem_filter.mp hr).2
    simp only [Bool.not_eq_true'] at this
    simp [this]
  · intro h
    simp only [delete] at h ⊢
    have hnone : t.find? (fun r => hasSlug r slug) = none := by
      rcases hopt : t.find? (fun r => hasSlug r slug) with _ | r
      · rfl
      · rw [get_by_slug] at h
        rw [hopt] at h
        simp at h
    have hall := List.find?_eq_none.mp hnone
    refine List.filter_eq_self.mpr ?_
    intro r hr
    simp only [Bool.not_eq_true']
    exact Bool.not_eq_true _ ▸ (by simpa using hall r hr)

/-- Claim C8: a `NetworkBase` payload is constructible iff its validated
fields pass, and for a fixed valid name and type the VLAN ID is accepted iff
`1 ≤ id ≤ 4094`; `0`, `4095` and everything above are rejected at
construction, so no payload exists to reach the store. -/
theorem C8_thm : ∀ (name ntype : PyStr) (v : Int),
    ((mkNetworkBase name ntype (some v)).isSome = true ↔
      (nameOk name = true ∧ networkTypeOk ntype = true ∧ 1 ≤ v ∧ v ≤ 4094))
  ∧ mkNetworkBase (strCodes "Lan") (strCodes "ethernet") (some 0) = none
  ∧ mkNetworkBase (strCodes "Lan") (strCodes "ethernet") (some 4095) = none
  ∧ (4095 ≤ v → mkNetworkBase name ntype (some v) = none) := by
  intro name ntype v
  refine ⟨⟨?_, ?_⟩, by decide, by decide, ?_⟩
  · intro h
    by_cases hc : (nameOk name && networkTypeOk ntype && vlanOk (some v)) = true
    · simp only [vlanOk, Bool.and_eq_true, decide_eq_true_eq] at hc
      exact ⟨hc.1.1, hc.1.2, hc.2.1, hc.2.2⟩
    · exfalso
      unfold mkNetworkBase at h
      rw [if_neg hc] at h
      simp at h
  · rintro ⟨h1, h2, h3, h4⟩
    unfold mkNetworkBase
    rw [if_pos (by simp [vlanOk, h1, h2, h3, h4])]
    rfl
  · intro h
    have h4 : vlanOk (some v) = false := by
      simp only [vlanOk, Bool.and_eq_false_iff, decide_eq_false_iff_not]
      right
      omega
    unfold mkNetworkBase
    rw [if_neg (by simp [h4])]

/-- Claim C9: the connection provider closes the opened connection on every
exit path of the enclosed operation — value, exception, or cancellation — so
the number of open connections is restored, while the outcome of the body
propagates unchanged. -/
theorem C9_thm : ∀ (A : Type) (connectOk : Bool) (body : DBState → Outcome A × DBState)
    (s : DBState), (∀ st, ((body st).2).openConns = st.openConns) →
    ((get_connection_scope connectOk body s).2.openConns = s.openConns
  ∧ (connectOk = true →
      (get_connection_scope connectOk body s).1 = (body (connectDB s)).1)) := by
  intro A connectOk body s hbody
  constructor
  · cases connectOk with
    | false => rfl
    | true =>
      simp only [get_connection_scope, if_true, closeDB, hbody, connectDB]
      omega
  · intro h
    subst h
    rfl

/-- Uppercasing a hex digit yields an uppercase hex digit. -/
theorem hex_upper (n : Nat) (h : isHexCode n = true) : isUpperHexCode (pyUpper n) = true := by
  simp only [isHexCode, Bool.or_eq_true, Bool.and_eq_true, decide_eq_true_eq] at h
  unfold pyUpper
  split
  · rename_i hc
    simp only [Bool.and_eq_true, decide_eq_true_eq] at hc
    simp only [isUpperHexCode, Bool.or_eq_true, Bool.and_eq_true, decide_eq_true_eq]
    omega
  · rename_i hc
    simp only [Bool.and_eq_true, decide_eq_true_eq, not_and, not_le] at hc
    simp only [isUpperHexCode, Bool.or_eq_true, Bool.and_eq_true, decide_eq_true_eq]
    omega

/-- Accepted MACs are canonical. -/
theorem mac_canonical : ∀ (v out : PyStr), validate_mac v = some out →
    isCanonicalMac out = true := by
  intro v out h
  simp only [validate_mac] at h
  split at h
  · rename_i hl
    have hhex : ∀ x ∈ v.filter isHexCode, isHexCode x = true :=
      fun x hx => (List.mem_filter.mp hx).2
    obtain rfl := (Option.some.injEq _ _).mp h
    revert hl hhex
    generalize v.filter isHexCode = mac
    intro hl hhex
    rcases mac with _ | ⟨a, mac⟩; · simp at hl
    rcases mac with _ | ⟨b, mac⟩; · simp at hl
    rcases mac with _ | ⟨c, mac⟩; · simp at hl
    rcases mac with _ | ⟨d, mac⟩; · simp at hl
    rcases mac with _ | ⟨e, mac⟩; · simp at hl
    rcases mac with _ | ⟨f, mac⟩; · simp at hl
    rcases mac with _ | ⟨g, mac⟩; · simp at hl
    rcases mac with _ | ⟨h1, mac⟩; · simp at hl
    rcases mac with _ | ⟨i, mac⟩; · simp at hl
    rcases mac with _ | ⟨j, mac⟩; · simp at hl
    rcases mac with _ | ⟨k, mac⟩; · simp at hl
    rcases mac with _ | ⟨m, mac⟩; · simp at hl
    rcases mac with _ | ⟨x, mac⟩
    · simp only [chunk2, List.map_cons, List.map_nil, joinSep, List.cons_append,
        List.nil_append, isCanonicalMac]
      simp only [Bool.and_eq_true, beq_self_eq_true, true_and]
      repeat' apply And.intro
      all_goals (apply hex_upper; apply hhex; simp)
    · simp at hl
  · cases h

/-! ### Slug characterization machinery -/

theorem subDashSt_true (l : PyStr) :
    subDashSt true l = subDashSt false (l.dropWhile fun d => !isSlugChar d) := by
  induction l with
  | nil => rfl
  | cons c cs ih =>
    by_cases hc : isSlugChar c
    · simp [subDashSt, hc, List.dropWhile_cons]
    · simp only [subDashSt, hc, if_false, Bool.false_eq_true, ite_false, ih,
        List.dropWhile_cons]
      simp [hc]

theorem subDash_cons_good (c : Nat) (cs : PyStr) (hc : isSlugChar c = true) :
    subDash (c :: cs) = c :: subDash cs := by
  simp [subDash, subDashSt, hc]

theorem subDash_cons_bad (c : Nat) (cs : PyStr) (hc : isSlugChar c = false) :
    subDash (c :: cs) = 45 :: subDash (cs.dropWhile fun d => !isSlugChar d) := by
  simp [subDash, subDashSt, hc, subDashSt_true]

theorem subDash_take (l : PyStr) :
    subDash l = l.takeWhile isSlugChar ++ subDash (l.dropWhile isSlugChar) := by
  induction l with
  | nil => rfl
  | cons c cs ih =>
    by_cases hc : isSlugChar c
    · rw [subDash_cons_good c cs hc, List.takeWhile_cons, List.dropWhile_cons]
      simp [hc, ih]
    · rw [List.takeWhile_cons, List.dropWhile_cons]
      simp [hc]

theorem joinSep_cons_ne (sep : Nat) (r : PyStr) (rs : List PyStr) (h : rs ≠ []) :
    joinSep sep (r :: rs) = r ++ sep :: joinSep sep rs := by
  cases rs with
  | nil => exact absurd rfl h
  | cons a t => rfl

theorem padIf_true : padIf true = [[]] := rfl

theorem padIf_false : padIf false = [] := rfl

theorem alnumRuns_nil : alnumRuns [] = [] := by rw [alnumRuns]

theorem alnumRuns_cons_good (c : Nat) (cs : PyStr) (hc : isSlugChar c = true) :
    alnumRuns (c :: cs) =
      (c :: cs.takeWhile isSlugChar) :: alnumRuns (cs.dropWhile isSlugChar) := by
  rw [alnumRuns]
  simp [hc]

theorem alnumRuns_cons_bad (c : Nat) (cs : PyStr) (hc : isSlugChar c = false) :
    alnumRuns (c :: cs) = alnumRuns (cs.dropWhile fun d => !isSlugChar d) := by
  rw [alnumRuns]
  simp [hc]

theorem mem_dropWhile_of_neg {p : Nat → Bool} {l : PyStr} {x : Nat}
    (hx : x ∈ l) (hp : p x = false) : x ∈ l.dropWhile p := by
  induction l with
  | nil => cases hx
  | cons a t ih =>
    rw [List.dropWhile_cons]
    split
    · rcases List.mem_cons.mp hx with rfl | hxt
      · rename_i ha; rw [hp] at ha; cases ha
      · exact ih hxt
    · exact hx

theorem dropWhile_len_le (p : Nat → Bool) (l : PyStr) :
    (l.dropWhile p).length ≤ l.length := by
  induction l with
  | nil => simp
  | cons a t ih =>
    rw [List.dropWhile_cons]
    split
    · exact Nat.le_succ_of_le ih
    · exact Nat.le_refl _

theorem alnumRuns_ne_nil_aux : ∀ n : Nat, ∀ l : PyStr, l.length ≤ n →
    ∀ x ∈ l, isSlugChar x = true → alnumRuns l ≠ [] := by
  intro n
  induction n with
  | zero =>
    intro l hl x hx _
    rw [List.length_eq_zero.mp (Nat.le_zero.mp hl)] at hx
    cases hx
  | succ n ih =>
    intro l hl x hx hs
    cases l with
    | nil => cases hx
    | cons c cs =>
      by_cases hc : isSlugChar c
      · rw [alnumRuns_cons_good c cs hc]; simp
      · rw [alnumRuns_cons_bad c cs (by simp [hc])]
        have hxcs : x ∈ cs := by
          rcases List.mem_cons.mp hx with rfl | h
          · exact absurd hs (by simp [hc])
          · exact h
        refine ih _ ?_ x (mem_dropWhile_of_neg hxcs (by simp [hs])) hs
        calc (cs.dropWhile fun d => !isSlugChar d).length
            ≤ cs.length := dropWhile_len_le _ cs
          _ ≤ n := Nat.le_of_succ_le_succ hl

theorem alnumRuns_ne_nil {l : PyStr} {x : Nat} (hx : x ∈ l) (hs : isSlugChar x = true) :
    alnumRuns l ≠ [] :=
  alnumRuns_ne_nil_aux l.length l (Nat.le_refl _) x hx hs

theorem mem_of_getLast? {l : PyStr} {a : Nat} (h : l.getLast? = some a) : a ∈ l := by
  rw [← List.head?_reverse] at h
  exact List.mem_reverse.mp (List.mem_of_mem_head? (by simp [h]))

theorem dropWhile_head_false (p : Nat → Bool) (l : PyStr) (a : Nat) (t : PyStr)
    (h : l.dropWhile p = a :: t) : p a = false := by
  induction l with
  | nil => cases h
  | cons b s ih =>
    rw [List.dropWhile_cons] at h
    split at h
    · exact ih h
    · rename_i hb
      cases h
      simpa using hb

theorem alnumRuns_wf_aux : ∀ n : Nat, ∀ l : PyStr, l.length ≤ n →
    runsWF (alnumRuns l) := by
  intro n
  induction n with
  | zero =>
    intro l hl
    rw [List.length_eq_zero.mp (Nat.le_zero.mp hl), alnumRuns_nil]
    intro r hr
    cases hr
  | succ n ih =>
    intro l hl
    cases l with
    | nil =>
      rw [alnumRuns_nil]
      intro r hr
      cases hr
    | cons c cs =>
      by_cases hc : isSlugChar c
      · rw [alnumRuns_cons_good c cs hc]
        intro r hr
        rcases List.mem_cons.mp hr with rfl | hrr
        · refine ⟨by simp, ?_⟩
          intro x hx
          rcases List.mem_cons.mp hx with rfl | hxx
          · exact hc
          · exact List.mem_takeWhile_imp hxx
        · exact ih _ (le_trans (dropWhile_len_le _ cs) (Nat.le_of_succ_le_succ hl)) r hrr
      · rw [alnumRuns_cons_bad c cs (by simpa using hc)]
        exact ih _ (le_trans (dropWhile_len_le _ cs) (Nat.le_of_succ_le_succ hl))

theorem alnumRuns_wf (l : PyStr) : runsWF (alnumRuns l) :=
  alnumRuns_wf_aux l.length l (Nat.le_refl _)

theorem subDash_cf_aux : ∀ n : Nat, ∀ l : PyStr, l.length ≤ n →
    subDash l = joinSep 45 (padIf (headBad l) ++ alnumRuns l ++ padIf (lastBad l)) := by
  intro n
  induction n with
  | zero =>
    intro l hl
    rw [List.length_eq_zero.mp (Nat.le_zero.mp hl)]
    simp [subDash, subDashSt, headBad, lastBad, padIf, alnumRuns_nil, joinSep]
  | succ n ih =>
    intro l hl
    cases l with
    | nil => simp [subDash, subDashSt, headBad, lastBad, padIf, alnumRuns_nil, joinSep]
    | cons c cs =>
      by_cases hc : isSlugChar c
      · have hhb : headBad (c :: cs) = false := by simp [headBad, hc]
        rw [subDash_cons_good c cs hc, subDash_take cs, alnumRuns_cons_good c cs hc, hhb]
        cases hrest : cs.dropWhile isSlugChar with
        | nil =>
          have hcs : cs.takeWhile isSlugChar = cs := by
            have h0 := List.takeWhile_append_dropWhile (p := isSlugChar) (l := cs)
            rw [hrest, List.append_nil] at h0
            exact h0
          have hall : ∀ x ∈ c :: cs, isSlugChar x = true := by
            intro x hx
            rcases List.mem_cons.mp hx with rfl | hxx
            · exact hc
            · exact List.mem_takeWhile_imp (hcs ▸ hxx)
          have hlb : lastBad (c :: cs) = false := by
            rcases hgl : (c :: cs).getLast? with _ | y
            · simp [lastBad, hgl]
            · simp [lastBad, hgl, hall y (mem_of_getLast? hgl)]
          rw [hlb, alnumRuns_nil]
          simp [subDash, subDashSt, padIf, joinSep, hcs]
        | cons d ds =>
          have hlen : (cs.dropWhile isSlugChar).length ≤ n :=
            le_trans (dropWhile_len_le _ cs) (Nat.le_of_succ_le_succ hl)
          have hrec := ih _ hlen
          rw [hrest] at hrec
          have hd : isSlugChar d = false := dropWhile_head_false _ _ _ _ hrest
          have hhb2 : headBad (d :: ds) = true := by simp [headBad, hd]
          rw [hhb2] at hrec
          have hXne : alnumRuns (d :: ds) ++ padIf (lastBad (d :: ds)) ≠ [] := by
            by_cases hlb2 : lastBad (d :: ds) = true
            · simp [padIf, hlb2]
            · obtain ⟨y, hy⟩ : ∃ y, (d :: ds).getLast? = some y := by
                rcases hgl : (d :: ds).getLast? with _ | y
                · rw [List.getLast?_eq_none_iff] at hgl
                  cases hgl
                · exact ⟨y, rfl⟩
              have hys : isSlugChar y = true := by
                by_contra hys
                have hyf : isSlugChar y = false := by simpa using hys
                exact hlb2 (by simp [lastBad, hy, hyf])
              have hne := alnumRuns_ne_nil (mem_of_getLast? hy) hys
              simp [padIf, hlb2, hne]
          have hcs_ne : cs ≠ [] := by
            intro h0
            rw [h0] at hrest
            cases hrest
          obtain ⟨t, ht⟩ : ∃ t, t ++ (d :: ds) = cs := by
            have hsuf := List.dropWhile_suffix (l := cs) (p := isSlugChar)
            rw [hrest] at hsuf
            exact hsuf
          have hlb_eq : lastBad (c :: cs) = lastBad (d :: ds) := by
            have h1 : (c :: cs).getLast? = cs.getLast? := by
              rw [show c :: cs = [c] ++ cs from rfl,
                List.getLast?_append_of_ne_nil [c] hcs_ne]
            have h2 : cs.getLast? = (d :: ds).getLast? := by
              rw [← ht, List.getLast?_append_of_ne_nil t (by simp)]
            simp [lastBad, h1, h2]
          simp only [padIf_true, List.singleton_append, List.cons_append,
            List.nil_append] at hrec
          rw [joinSep_cons_ne 45 [] _ hXne] at hrec
          simp only [List.nil_append] at hrec
          rw [hlb_eq, hrec]
          simp only [padIf_false, List.nil_append, List.cons_append]
          rw [joinSep_cons_ne 45 _ _ hXne]
          simp
      · have hcf : isSlugChar c = false := by simpa using hc
        rw [subDash_cons_bad c cs hcf, alnumRuns_cons_bad c cs hcf]
        have hhb : headBad (c :: cs) = true := by simp [headBad, hcf]
        rw [hhb]
        cases hrest : cs.dropWhile (fun d => !isSlugChar d) with
        | nil =>
          have hallbad : ∀ x ∈ cs, isSlugChar x = false := by
            intro x hx
            have h0 := List.dropWhile_eq_nil_iff.mp hrest x hx
            simpa using h0
          have hlb : lastBad (c :: cs) = true := by
            rcases hgl : (c :: cs).getLast? with _ | y
            · rw [List.getLast?_eq_none_iff] at hgl
              cases hgl
            · rcases List.mem_cons.mp (mem_of_getLast? hgl) with rfl | hyy
              · simp [lastBad, hgl, hcf]
              · simp [lastBad, hgl, hallbad y hyy]
          rw [hlb, alnumRuns_nil]
          simp [padIf, joinSep, subDash, subDashSt]
        | cons e es =>
          have he : isSlugChar e = true := by
            have h0 := dropWhile_head_false _ _ _ _ hrest
            simpa using h0
          have hlen : (cs.dropWhile fun d => !isSlugChar d).length ≤ n :=
            le_trans (dropWhile_len_le _ cs) (Nat.le_of_succ_le_succ hl)
          have hrec := ih _ hlen
          rw [hrest] at hrec
          have hhb2 : headBad (e :: es) = false := by simp [headBad, he]
          rw [hhb2] at hrec
          simp only [padIf_false, List.nil_append] at hrec
          have hXne : alnumRuns (e :: es) ++ padIf (lastBad (e :: es)) ≠ [] := by
            have hne := alnumRuns_ne_nil (List.mem_cons_self e es) he
            intro habs
            rcases List.append_eq_nil.mp habs with ⟨h1, _⟩
            exact hne h1
          have hcs_ne : cs ≠ [] := by
            intro h0
            rw [h0] at hrest
            cases hrest
          obtain ⟨t, ht⟩ : ∃ t, t ++ (e :: es) = cs := by
            have hsuf := List.dropWhile_suffix (l := cs) (p := fun d => !isSlugChar d)
            rw [hrest] at hsuf
            exact hsuf
          have hlb_eq : lastBad (c :: cs) = lastBad (e :: es) := by
            have h1 : (c :: cs).getLast? = cs.getLast? := by
              rw [show c :: cs = [c] ++ cs from rfl,
                List.getLast?_append_of_ne_nil [c] hcs_ne]
            have h2 : cs.getLast? = (e :: es).getLast? := by
              rw [← ht, List.getLast?_append_of_ne_nil t (by simp)]
            simp [lastBad, h1, h2]
          rw [hlb_eq, hrec]
          simp only [padIf_true, List.singleton_append, List.cons_append,
            List.nil_append]
          rw [joinSep_cons_ne 45 [] _ hXne]
          simp

theorem subDash_cf (l : PyStr) :
    subDash l = joinSep 45 (padIf (headBad l) ++ alnumRuns l ++ padIf (lastBad l)) :=
  subDash_cf_aux l.length l (Nat.le_refl _)

theorem slugChar_ne_dash {h : Nat} (hs : isSlugChar h = true) : h ≠ 45 := by
  intro h45
  rw [h45] at hs
  exact absurd hs (by decide)

theorem dropWhile_dash_stop {h : Nat} (hs : isSlugChar h = true) (tl : PyStr) :
    (h :: tl).dropWhile (· == 45) = h :: tl := by
  rw [List.dropWhile_cons, if_neg]
  simp [slugChar_ne_dash hs]

theorem stripDash_fix {X : PyStr} (h1 : ∃ h tl, X = h :: tl ∧ isSlugChar h = true)
    (h2 : ∃ h tl, X.reverse = h :: tl ∧ isSlugChar h = true) : stripDash X = X := by
  obtain ⟨h, tl, rfl, hs⟩ := h1
  obtain ⟨h', tl', hrev, hs'⟩ := h2
  unfold stripDash
  rw [dropWhile_dash_stop hs, hrev, dropWhile_dash_stop hs', ← hrev, List.reverse_reverse]

theorem joinSep_head (R : List PyStr) (hwf : runsWF R) (hne : R ≠ []) :
    ∃ h tl, joinSep 45 R = h :: tl ∧ isSlugChar h = true := by
  cases R with
  | nil => exact absurd rfl hne
  | cons r rs =>
    obtain ⟨hrne, hral⟩ := hwf r (List.mem_cons_self r rs)
    cases hr : r with
    | nil => exact absurd hr hrne
    | cons x xs =>
      have hx : isSlugChar x = true := hral x (hr ▸ List.mem_cons_self x xs)
      cases rs with
      | nil => exact ⟨x, xs, by simp [joinSep, hr], hx⟩
      | cons r2 rs2 =>
        subst hr
        refine ⟨x, xs ++ 45 :: joinSep 45 (r2 :: rs2), ?_, hx⟩
        rw [joinSep_cons_ne 45 (x :: xs) (r2 :: rs2) (by simp)]
        simp

theorem joinSep_rev_head (R : List PyStr) (hwf : runsWF R) (hne : R ≠ []) :
    ∃ h tl, (joinSep 45 R).reverse = h :: tl ∧ isSlugChar h = true := by
  induction R with
  | nil => exact absurd rfl hne
  | cons r rs ih =>
    obtain ⟨hrne, hral⟩ := hwf r (List.mem_cons_self r rs)
    cases rs with
    | nil =>
      cases hrev : r.reverse with
      | nil => exact absurd (by simpa using hrev) hrne
      | cons h tl =>
        have hh : h ∈ r := List.mem_reverse.mp (hrev ▸ List.mem_cons_self h tl)
        exact ⟨h, tl, by simp [joinSep, hrev], hral h hh⟩
    | cons r2 rs2 =>
      obtain ⟨h, tl, hrev, hs⟩ := ih (fun q hq => hwf q (List.mem_cons_of_mem r hq))
        (by simp)
      refine ⟨h, tl ++ (45 :: r.reverse), ?_, hs⟩
      rw [joinSep_cons_ne 45 r (r2 :: rs2) (by simp)]
      simp [hrev]

theorem joinSep_append_empty (R : List PyStr) (hne : R ≠ []) :
    joinSep 45 (R ++ [[]]) = joinSep 45 R ++ [45] := by
  induction R with
  | nil => exact absurd rfl hne
  | cons r rs ih =>
    cases rs with
    | nil => simp [joinSep]
    | cons r2 rs2 =>
      rw [List.cons_append, joinSep_cons_ne 45 r ((r2 :: rs2) ++ [[]]) (by simp),
        joinSep_cons_ne 45 r (r2 :: rs2) (by simp), ih (by simp)]
      simp

theorem stripDash_pads (a b : Bool) (R : List PyStr) (hwf : runsWF R) :
    stripDash (joinSep 45 (padIf a ++ R ++ padIf b)) = joinSep 45 R := by
  cases R with
  | nil => cases a <;> cases b <;> rfl
  | cons r rs =>
    have hne : (r :: rs : List PyStr) ≠ [] := by simp
    have hh := joinSep_head _ hwf hne
    have hrh := joinSep_rev_head _ hwf hne
    have hbase : stripDash (joinSep 45 (r :: rs)) = joinSep 45 (r :: rs) :=
      stripDash_fix hh hrh
    obtain ⟨h, tl, hX, hs⟩ := hh
    obtain ⟨h', tl', hXr, hs'⟩ := hrh
    cases a <;> cases b
    · simpa [padIf_false] using hbase
    · simp only [padIf_false, padIf_true, List.nil_append]
      rw [joinSep_append_empty _ hne]
      unfold stripDash
      rw [hX, List.cons_append, dropWhile_dash_stop hs, ← List.cons_append, ← hX,
        List.reverse_append]
      simp only [List.reverse_cons, List.reverse_nil, List.nil_append,
        List.singleton_append, List.dropWhile_cons]
      rw [if_pos (by simp), hXr, dropWhile_dash_stop hs', ← hXr, List.reverse_reverse]
    · simp only [padIf_true, padIf_false, List.singleton_append, List.cons_append,
        List.nil_append, List.append_nil]
      rw [joinSep_cons_ne 45 [] _ hne, List.nil_append]
      unfold stripDash
      rw [List.dropWhile_cons, if_pos (by simp), hX, dropWhile_dash_stop hs, ← hX]
      unfold stripDash at hbase
      rw [hX, dropWhile_dash_stop hs, ← hX] at hbase
      exact hbase
    · simp only [padIf_true, List.singleton_append, List.cons_append, List.nil_append]
      rw [joinSep_cons_ne 45 [] (r :: (rs ++ [[]])) (by simp), List.nil_append,
        ← List.cons_append, joinSep_append_empty _ hne]
      unfold stripDash
      rw [List.dropWhile_cons, if_pos (by simp), hX, List.cons_append,
        dropWhile_dash_stop hs, ← List.cons_append, ← hX, List.reverse_append]
      simp only [List.reverse_cons, List.reverse_nil, List.nil_append,
        List.singleton_append, List.dropWhile_cons]
      rw [if_pos (by simp), hXr, dropWhile_dash_stop hs', ← hXr, List.reverse_reverse]

theorem generate_slug_eq_spec (N : PyStr) : generate_slug N = slug_spec N := by
  unfold generate_slug slug_spec
  rw [subDash_cf (N.map pyLower)]
  exact stripDash_pads _ _ _ (alnumRuns_wf _)

theorem regexAccept_run (r t : PyStr) (hal : ∀ x ∈ r, isSlugChar x = true) :
    regexAccept false (r ++ t) = regexAccept false t := by
  induction r with
  | nil => rfl
  | cons x xs ih =>
    rw [List.cons_append]
    have hx : isSlugChar x = true := hal x (List.mem_cons_self x xs)
    simp only [regexAccept, hx, if_true]
    exact ih fun y hy => hal y (List.mem_cons_of_mem x hy)

theorem regexAccept_joinSep (R : List PyStr) (hwf : runsWF R) (hne : R ≠ []) :
    regexAccept true (joinSep 45 R) = true := by
  induction R with
  | nil => exact absurd rfl hne
  | cons r rs ih =>
    obtain ⟨hrne, hral⟩ := hwf r (List.mem_cons_self r rs)
    cases hr : r with
    | nil => exact absurd hr hrne
    | cons x xs =>
      subst hr
      have hx : isSlugChar x = true := hral x (List.mem_cons_self x xs)
      have hxs : ∀ y ∈ xs, isSlugChar y = true :=
        fun y hy => hral y (List.mem_cons_of_mem x hy)
      cases rs with
      | nil =>
        show regexAccept true (x :: xs) = true
        simp only [regexAccept, hx, if_true]
        have := regexAccept_run xs [] hxs
        rw [List.append_nil] at this
        rw [this]
        rfl
      | cons r2 rs2 =>
        rw [joinSep_cons_ne 45 (x :: xs) (r2 :: rs2) (by simp), List.cons_append]
        simp only [regexAccept, hx, if_true]
        rw [regexAccept_run xs _ hxs]
        simp only [regexAccept, show isSlugChar 45 = false by decide, if_false]
        simp [ih (fun q hq => hwf q (List.mem_cons_of_mem (x :: xs) hq)) (by simp)]

theorem slugRegex_generate (N : PyStr) : slugRegex (generate_slug N) = true := by
  rw [generate_slug_eq_spec N]
  unfold slug_spec
  have hwf := alnumRuns_wf (N.map pyLower)
  cases hR : alnumRuns (N.map pyLower) with
  | nil => rfl
  | cons r rs =>
    rw [hR] at hwf
    simp [slugRegex, regexAccept_joinSep (r :: rs) hwf (by simp)]

theorem takeWhile_append_stop {p : Nat → Bool} {xs : PyStr} {y : Nat} {t : PyStr}
    (h : ∀ x ∈ xs, p x = true) (hy : p y = false) :
    (xs ++ y :: t).takeWhile p = xs := by
  induction xs with
  | nil => simp [List.takeWhile_cons, hy]
  | cons a as ih =>
    rw [List.cons_append, List.takeWhile_cons, if_pos (h a (List.mem_cons_self a as)),
      ih fun x hx => h x (List.mem_cons_of_mem a hx)]

theorem dropWhile_append_stop {p : Nat → Bool} {xs : PyStr} {y : Nat} {t : PyStr}
    (h : ∀ x ∈ xs, p x = true) (hy : p y = false) :
    (xs ++ y :: t).dropWhile p = y :: t := by
  induction xs with
  | nil => simp [List.dropWhile_cons, hy]
  | cons a as ih =>
    rw [List.cons_append, List.dropWhile_cons, if_pos (h a (List.mem_cons_self a as)),
      ih fun x hx => h x (List.mem_cons_of_mem a hx)]

theorem alnumRuns_joinSep (R : List PyStr) (hwf : runsWF R) :
    alnumRuns (joinSep 45 R) = R := by
  induction R with
  | nil => exact alnumRuns_nil
  | cons r rs ih =>
    obtain ⟨hrne, hral⟩ := hwf r (List.mem_cons_self r rs)
    cases hr : r with
    | nil => exact absurd hr hrne
    | cons x xs =>
      subst hr
      have hx : isSlugChar x = true := hral x (List.mem_cons_self x xs)
      have hxs : ∀ y ∈ xs, isSlugChar y = true :=
        fun y hy => hral y (List.mem_cons_of_mem x hy)
      have hwfrs : runsWF rs := fun q hq => hwf q (List.mem_cons_of_mem (x :: xs) hq)
      cases rs with
      | nil =>
        show alnumRuns (x :: xs) = [x :: xs]
        rw [alnumRuns_cons_good x xs hx, List.takeWhile_eq_self_iff.mpr hxs,
          List.dropWhile_eq_nil_iff.mpr hxs, alnumRuns_nil]
      | cons r2 rs2 =>
        rw [joinSep_cons_ne 45 (x :: xs) (r2 :: rs2) (by simp), List.cons_append,
          alnumRuns_cons_good x _ hx,
          takeWhile_append_stop hxs (by decide : isSlugChar 45 = false),
          dropWhile_append_stop hxs (by decide : isSlugChar 45 = false),
          alnumRuns_cons_bad 45 _ (by decide)]
        obtain ⟨h, tl, hJ, hs⟩ := joinSep_head (r2 :: rs2) hwfrs (by simp)
        rw [hJ, List.dropWhile_cons, if_neg (by simp [hs]), ← hJ, ih hwfrs]

theorem mem_joinSep {x : Nat} {R : List PyStr} (hx : x ∈ joinSep 45 R) :
    (∃ r ∈ R, x ∈ r) ∨ x = 45 := by
  induction R with
  | nil => cases hx
  | cons r rs ih =>
    cases rs with
    | nil => exact Or.inl ⟨r, List.mem_cons_self r [], hx⟩
    | cons r2 rs2 =>
      rw [joinSep_cons_ne 45 r (r2 :: rs2) (by simp)] at hx
      rcases List.mem_append.mp hx with hin | hin
      · exact Or.inl ⟨r, List.mem_cons_self r _, hin⟩
      · rcases List.mem_cons.mp hin with rfl | hin2
        · exact Or.inr rfl
        · rcases ih hin2 with ⟨q, hq, hxq⟩ | h45
          · exact Or.inl ⟨q, List.mem_cons_of_mem r hq, hxq⟩
          · exact Or.inr h45

theorem pyLower_fix {x : Nat} (h : isSlugChar x = true ∨ x = 45) : pyLower x = x := by
  rcases h with h | rfl
  · simp only [isSlugChar, Bool.or_eq_true, Bool.and_eq_true, decide_eq_true_eq] at h
    unfold pyLower
    rw [if_neg]
    simp only [Bool.and_eq_true, decide_eq_true_eq, not_and, not_le]
    omega
  · rfl

theorem map_pyLower_joinSep (R : List PyStr) (hwf : runsWF R) :
    (joinSep 45 R).map pyLower = joinSep 45 R := by
  refine map_fix _ _ ?_
  intro x hx
  rcases mem_joinSep hx with ⟨r, hr, hxr⟩ | h45
  · exact pyLower_fix (Or.inl ((hwf r hr).2 x hxr))
  · exact pyLower_fix (Or.inr h45)

theorem generate_slug_idem (N : PyStr) :
    generate_slug (generate_slug N) = generate_slug N := by
  have hwf := alnumRuns_wf (N.map pyLower)
  calc generate_slug (generate_slug N)
      = slug_spec (generate_slug N) := generate_slug_eq_spec _
    _ = joinSep 45 (alnumRuns ((generate_slug N).map pyLower)) := rfl
    _ = joinSep 45 (alnumRuns ((slug_spec N).map pyLower)) := by
        rw [generate_slug_eq_spec N]
    _ = joinSep 45 (alnumRuns (slug_spec N)) := by
        rw [show (slug_spec N).map pyLower = slug_spec N from
          map_pyLower_joinSep _ hwf]
    _ = joinSep 45 (alnumRuns (N.map pyLower)) := by
        rw [show alnumRuns (slug_spec N) = alnumRuns (N.map pyLower) from
          alnumRuns_joinSep _ hwf]
    _ = slug_spec N := rfl
    _ = generate_slug N := (generate_slug_eq_spec N).symm

/-! ## Claim theorems: slug and MAC -/

/-- Claim C3: for every name, `generate_slug` equals the name lowercased with
every maximal run of characters outside `[a-z0-9]` replaced by a single hyphen
and leading/trailing hyphens stripped (equivalently, the maximal alphanumeric
runs joined by single hyphens); the result matches the pattern
`[a-z0-9]+(-[a-z0-9]+)*` or is empty; the function is idempotent; and the
three example inputs map to their stated slugs. -/
theorem C3_thm : ∀ N : PyStr,
    generate_slug N = slug_spec N
  ∧ slugRegex (generate_slug N) = true
  ∧ generate_slug (generate_slug N) = generate_slug N
  ∧ generate_slug (strCodes "Test   Name") = strCodes "test-name"
  ∧ generate_slug (strCodes "John" ++ [39] ++ strCodes "s Device") =
      strCodes "john-s-device"
  ∧ generate_slug (strCodes "Living & Dining") = strCodes "living-dining" :=
  fun N => ⟨generate_slug_eq_spec N, slugRegex_generate N, generate_slug_idem N,
    by decide, by decide, by decide⟩

/-- Claim C4: the three spec inputs normalize to `00:1A:2B:3C:4D:5E`; every
input with fewer than 12 hex digits after stripping non-hex characters is
rejected; and every accepted MAC is returned (hence stored) in the canonical
colon-separated uppercase form. -/
theorem C4_thm :
    validate_mac (strCodes "00:1A:2B:3C:4D:5E") = some (strCodes "00:1A:2B:3C:4D:5E")
  ∧ validate_mac (strCodes "00-1A-2B-3C-4D-5E") = some (strCodes "00:1A:2B:3C:4D:5E")
  ∧ validate_mac (strCodes "001a2b3c4d5e") = some (strCodes "00:1A:2B:3C:4D:5E")
  ∧ (∀ v : PyStr, (v.filter isHexCode).length < 12 → validate_mac v = none)
  ∧ (∀ v out : PyStr, validate_mac v = some out → isCanonicalMac out = true) := by
  refine ⟨by decide, by decide, by decide, ?_, mac_canonical⟩
  intro v h
  simp only [validate_mac]
  rw [if_neg]
  omega

/-- Witness for C4: a 4-hex-digit input is rejected, and the canonical output
for a concrete accepted input passes the canonical-form check. -/
theorem C4_witness :
    validate_mac (strCodes "00:1A") = none
  ∧ isCanonicalMac (strCodes "00:1A:2B:3C:4D:5E") = true :=
  ⟨C4_thm.2.2.2.1 (strCodes "00:1A") (by decide),
   C4_thm.2.2.2.2 (strCodes "001a2b3c4d5e") (strCodes "00:1A:2B:3C:4D:5E") (by decide)⟩

/-- Claim C10 (implicit): MAC validation requires exactly 12 hex digits — an
input with more than 12 hex digits after stripping, such as a 16-hex-digit
string, is rejected just like one with fewer. -/
theorem C10_thm :
    (∀ v : PyStr, 12 < (v.filter isHexCode).length → validate_mac v = none)
  ∧ validate_mac (strCodes "0011223344556677") = none := by
  refine ⟨?_, by decide⟩
  intro v h
  simp only [validate_mac]
  rw [if_neg]
  omega

/-- Witness for C10: a 14-hex-digit input is rejected via the theorem. -/
theorem C10_witness : validate_mac (strCodes "00112233445566") = none :=
  C10_thm.1 (strCodes "00112233445566") (by decide)

/-! ## Counterexamples and witnesses: payload claims -/

/-- Counterexample to C1 as stated: in `DeviceUpdate(mac_address=None)` the
field `mac_address` is explicitly set to null, yet the applied field dict is
empty — the explicitly cleared field is NOT applied, contrary to the claim. -/
theorem C1_counterexample :
    (∃ f ∈ pydanticFill deviceUpdateModel c1given,
        f.name = "mac_address" ∧ f.isSet = true ∧ f.value = none)
  ∧ update_fields (pydanticFill deviceUpdateModel c1given) = [] := by
  decide

/-- Witness for C1 (amended): a field explicitly set to a non-null value is
applied. -/
theorem C1_witness :
    ("name", some (Value.vStr (strCodes "Lab2"))) ∈
      update_fields (pydanticFill deviceUpdateModel updateNameGiven) :=
  (C1_thm (pydanticFill deviceUpdateModel updateNameGiven)).1
    ⟨"name", true, some (Value.vStr (strCodes "Lab2"))⟩ (by decide) rfl rfl

/-- Counterexample to C2 as stated: creating a device with only `name`,
`device_type` and `site_id` set nevertheless sends `status = "unknown"` and
`is_active = true` to the store — fields the caller did not set. -/
theorem C2_counterexample :
    ((create_fields (pydanticFill deviceCreateModel c2given)).getD []).lookup "status" =
        some (some (Value.vStr (strCodes "unknown")))
  ∧ ((create_fields (pydanticFill deviceCreateModel c2given)).getD []).lookup "is_active" =
        some (some (Value.vBool true))
  ∧ c2given.lookup "status" = none
  ∧ c2given.lookup "is_active" = none := by
  decide

/-- Witness for C2 (amended): a caller-set non-null field is sent to the
store. -/
theorem C2_witness :
    ("name", some (Value.vStr (strCodes "Temp Sensor"))) ∈
      (create_fields (pydanticFill deviceCreateModel c2given)).getD [] :=
  (C2_thm (pydanticFill deviceCreateModel c2given)
      ((create_fields (pydanticFill deviceCreateModel c2given)).getD [])
      (by decide)).1
    ⟨"name", true, some (Value.vStr (strCodes "Temp Sensor"))⟩ (by decide) rfl

/-- Witness for C5: with a concrete creation payload carrying a name and no
slug, the derived slug is appended. -/
theorem C5_witness :
    create_fields (pydanticFill deviceCreateModel c2given) =
      some (model_dump (pydanticFill deviceCreateModel c2given) true false ++
        [("slug", some (Value.vStr (generate_slug (strCodes "Temp Sensor"))))]) :=
  (C5_thm (pydanticFill deviceCreateModel c2given)).1 (strCodes "Temp Sensor")
    (by decide) (by decide)

/-- Witness for C6: empty-payload update is a no-op returning the current
entity, and an update on an absent slug returns not-found. -/
theorem C6_witness :
    update demoTable (strCodes "lab") emptyDeviceUpdate =
      (demoTable, get_by_slug demoTable (strCodes "lab"))
  ∧ update demoTable (strCodes "nope") emptyDeviceUpdate = (demoTable, none) :=
  ⟨(C6_thm demoTable (strCodes "lab") emptyDeviceUpdate).1 (by decide),
   (C6_thm demoTable (strCodes "nope") emptyDeviceUpdate).2 (by decide)⟩

/-- Witness for C7: after deleting `lab` it is no longer found, and deleting
an absent slug leaves the table unchanged. -/
theorem C7_witness :
    get_by_slug (delete demoTable (strCodes "lab")).1 (strCodes "lab") = none
  ∧ (delete demoTable (strCodes "nope")).1 = demoTable :=
  ⟨(C7_thm demoTable (strCodes "lab")).2.1,
   (C7_thm demoTable (strCodes "nope")).2.2 (by decide)⟩

/-- Witness for C8: VLAN 100 is accepted, VLAN 5000 rejected. -/
theorem C8_witness :
    (mkNetworkBase (strCodes "Lan") (strCodes "ethernet") (some 100)).isSome = true
  ∧ mkNetworkBase (strCodes "Lan") (strCodes "ethernet") (some 5000) = none :=
  ⟨(C8_thm (strCodes "Lan") (strCodes "ethernet") 100).1.mpr
      ⟨by decide, by decide, by decide, by decide⟩,
   (C8_thm (strCodes "Lan") (strCodes "ethernet") 5000).2.2.2 (by decide)⟩

/-- Witness for C9: a body that raises still leaves no connection open, and
its exception propagates. -/
theorem C9_witness :
    (get_connection_scope true (fun st => ((Outcome.exn 7 : Outcome Nat), st))
      ⟨0⟩).2.openConns = 0
  ∧ (get_connection_scope true (fun st => ((Outcome.exn 7 : Outcome Nat), st))
      ⟨0⟩).1 = Outcome.exn 7 :=
  ⟨(C9_thm Nat true (fun st => (Outcome.exn 7, st)) ⟨0⟩ fun _st => rfl).1,
   (C9_thm Nat true (fun st => (Outcome.exn 7, st)) ⟨0⟩ fun _st => rfl).2 rfl⟩

end Inventory
